import Mathlib
/-!
Verification of the chatdb SQL-guard, token-budgeting and orchestration core.

The definitions below are a shallow embedding of the TypeScript sources:
  - packages/chatdb-sdk/src/guard/sql-guard.ts   (validateSQL, ensureLimit)
  - packages/chatdb-sdk/src/utils/tokens.ts      (estimateTokens, truncateSchema)
  - packages/chatdb-sdk/src/prompt/system.ts     (buildSystemPrompt, DIALECTS)
  - packages/chatdb-sdk/src/chatdb.ts            (buildMessages, getCachedSchema,
                                                  ask, clearHistory, refreshSchema)

Strings are modelled at the Unicode code-point level (Lean `String` /
`List Char`); the few JavaScript regular expressions involved are unrolled
into explicit scanning functions, documented at each definition.
`Char.toUpper` models JavaScript `toUpperCase` (the texts involved are
ASCII-cased; both agree there).
-/
/-- The character class of JavaScript `\s` and of `String.prototype.trim`:
ASCII whitespace, NBSP, the Unicode space separators, line/paragraph
separators and the BOM. -/
def jsWhitespace : List Char :=
  [' ', '\t', '\n', '\r', '\x0b', '\x0c', ' ', ' ',
   ' ', ' ', ' ', ' ', ' ', ' ',
   ' ', ' ', ' ', ' ', ' ', ' ',
   ' ', ' ', ' ', '　', '﻿']

def jsIsSpace (c : Char) : Bool := jsWhitespace.contains c

/-- JavaScript `\w` / `\b` word characters: `[A-Za-z0-9_]`. -/
def isWordChar (c : Char) : Bool := c.isAlphanum || c = '_'

/-- Model of `String.prototype.trim` on the underlying character list. -/
def jsTrimL (l : List Char) : List Char :=
  (((l.dropWhile jsIsSpace).reverse.dropWhile jsIsSpace)).reverse

def jsTrim (s : String) : String := ⟨jsTrimL s.data⟩

/-- Case-insensitive prefix test, as the `i`-flagged regexes do on their
ASCII patterns: compare character-wise after `toUpper`. -/
def ciStartsWith : List Char → List Char → Bool
  | [], _ => true
  | _ :: _, [] => false
  | k :: ks, c :: cs => (k.toUpper == c.toUpper) && ciStartsWith ks cs

/-- One alternative of `/^(SELECT|WITH)\s/i`: the keyword followed by a
whitespace character. -/
def kwThenSpace (kw : List Char) (l : List Char) : Bool :=
  ciStartsWith kw l &&
    (match l.drop kw.length with
     | c :: _ => jsIsSpace c
     | [] => false)

/-- Test `/^(SELECT|WITH)\s/i.test trimmed` from validateSQL. -/
def shapeOK (l : List Char) : Bool :=
  kwThenSpace "SELECT".data l || kwThenSpace "WITH".data l

/-- Helper for the claim statements: the trimmed text merely begins with
`SELECT` or `WITH` (case-insensitive), with no demand on what follows. -/
def beginsSelectOrWith (l : List Char) : Bool :=
  ciStartsWith "SELECT".data l || ciStartsWith "WITH".data l

/-- Model of `trimmed.replace(/'[^']*'/g, "''")`: each single-quoted span is replaced
by an empty pair of quotes; an unterminated opening quote (no further quote
in the text) matches nothing and is kept verbatim, as is everything that
follows it. -/
def stripLitsAux : List Char → Option (List Char) → List Char
  | [], none => []
  | [], some buf => '\x27' :: buf.reverse
  | c :: rest, none =>
    if c = '\x27' then stripLitsAux rest (some [])
    else c :: stripLitsAux rest none
  | c :: rest, some buf =>
    if c = '\x27' then '\x27' :: '\x27' :: stripLitsAux rest none
    else stripLitsAux rest (some (c :: buf))

def stripLitsL (l : List Char) : List Char := stripLitsAux l none

/-- Model of `withoutStrings.includes(";") && withoutStrings.indexOf(";") <
withoutStrings.length - 1`: the first semicolon sits strictly before the
last character. -/
def semiBad (l : List Char) : Bool :=
  match l.findIdx? (fun c => c = ';') with
  | some i => decide (i < l.length - 1)
  | none => false

def upperL (l : List Char) : List Char := l.map Char.toUpper

/-- Word boundary on the left of position `i`: start of text or a
non-word character right before (the pattern's first character is a word
character, so `\b` reduces to this). -/
def boundaryBefore (l : List Char) (i : Nat) : Bool :=
  decide (i = 0) || !(isWordChar (l.getD (i - 1) ' '))

/-- Word boundary right after position `j` (the pattern's last character is
a word character): end of text or a non-word character at `j`. -/
def boundaryAfter (l : List Char) (j : Nat) : Bool :=
  match l.drop j with
  | [] => true
  | c :: _ => !(isWordChar c)

/-- Model of `new RegExp("\\b" + keyword + "\\b").test(upper)`: the keyword occurs at
some position with word boundaries on both sides. -/
def hasWordBounded (kw : List Char) (l : List Char) : Bool :=
  (List.range (l.length + 1)).any fun i =>
    boundaryBefore l i && kw.isPrefixOf (l.drop i) && boundaryAfter l (i + kw.length)

def BLOCKED_KEYWORDS : List String :=
  ["INSERT", "UPDATE", "DELETE", "DROP", "ALTER", "TRUNCATE",
   "CREATE", "GRANT", "REVOKE", "EXEC", "EXECUTE", "COPY"]

structure VResult where
  valid : Bool
  error : Option String
deriving DecidableEq, Repr

/-- Embedding of `validateSQL` from guard/sql-guard.ts. `allowWrites` is the
(defaulted-to-false) option. -/
def validateSQL (sql : String) (allowWrites : Bool) : VResult :=
  if allowWrites then ⟨true, none⟩
  else
    let trimmed := jsTrimL sql.data
    if !(shapeOK trimmed) then ⟨false, some "Only SELECT queries are allowed."⟩
    else
      let withoutStrings := stripLitsL trimmed
      if semiBad withoutStrings then ⟨false, some "Multiple statements are not allowed."⟩
      else
        let upper := upperL withoutStrings
        match BLOCKED_KEYWORDS.find? (fun kw => hasWordBounded kw.data upper) with
        | some kw => ⟨false, some (kw ++ " operations are not allowed.")⟩
        | none => ⟨true, none⟩

/-- Model of `trimmed.replace(/;$/, "")`: drop one trailing semicolon. -/
def stripTrailingSemi (l : List Char) : List Char :=
  if l.getLast? = some ';' then l.dropLast else l

/-- Tail of the `/\bLIMIT\s+\d+/i` pattern after the keyword: at least one
whitespace character, then (skipping the whitespace run) a digit.  Since
`\s` and `\d` are disjoint the regex backtracking collapses to exactly
this test. -/
def afterDigit : List Char → Bool
  | [] => false
  | c :: rest => if jsIsSpace c then afterDigit rest else c.isDigit

def afterLimitOK : List Char → Bool
  | [] => false
  | c :: rest => jsIsSpace c && afterDigit rest

/-- Occurrence of `/\bLIMIT\s+\d+/i` starting at position `i`. -/
def limitMatchAt (l : List Char) (i : Nat) : Bool :=
  boundaryBefore l i && ciStartsWith "LIMIT".data (l.drop i) && afterLimitOK (l.drop (i + 5))

/-- Test of `/\bLIMIT\s+\d+/i` anywhere in the text. -/
def hasLimitL (l : List Char) : Bool :=
  (List.range (l.length + 1)).any (limitMatchAt l)

/-- Embedding of `ensureLimit` from guard/sql-guard.ts. -/
def ensureLimit (sql : String) (maxRows : Nat) : String :=
  let trimmed := stripTrailingSemi (jsTrimL sql.data)
  if hasLimitL trimmed then ⟨trimmed⟩
  else ⟨trimmed⟩ ++ " LIMIT " ++ toString maxRows

/-- Embedding of `estimateTokens` from utils/tokens.ts:
`Math.ceil(text.length / 4)`. -/
def estimateTokens (s : String) : Nat := (s.length + 3) / 4

/-- The marker line `truncateSchema` appends. -/
def schemaMarker : String := "\n... (schema truncated to fit context)"

/-- JavaScript `String.prototype.lastIndexOf` for a single character:
`-1` when absent. -/
def jsLastIndexOf (l : List Char) (c : Char) : Int :=
  match l.reverse.findIdx? (fun d => d = c) with
  | some j => (l.length : Int) - 1 - j
  | none => -1

/-- JavaScript `slice(0, e)` with a possibly negative end index:
a negative `e` counts back from the end, clamped at 0. -/
def jsSliceTo (l : List Char) (e : Int) : List Char :=
  if e < 0 then l.take ((l.length : Int) + e).toNat else l.take e.toNat

/-- Embedding of `truncateSchema` from utils/tokens.ts. -/
def truncateSchema (schema : String) (maxTokens : Nat) : String × Bool :=
  let maxChars := maxTokens * 4
  if schema.length ≤ maxChars then (schema, false)
  else
    let truncated := schema.data.take maxChars
    let lastNewline := jsLastIndexOf truncated '\n'
    (⟨jsSliceTo truncated lastNewline⟩ ++ schemaMarker, true)

inductive DatabaseDialect | postgresql | mysql | sqlite
deriving DecidableEq, Repr

structure SQLDialect where
  name : String
  currentDate : String
  dateTrunc : String
  stringConcat : String
  notes : List String
deriving DecidableEq, Repr

/-- Embedding of the `DIALECTS` table from prompt/dialects.ts. -/
def DIALECTS : DatabaseDialect → SQLDialect
  | .postgresql =>
    ⟨"PostgreSQL", "CURRENT_DATE", "date_trunc(\x27period\x27, column)", "||",
     ["Use ILIKE for case-insensitive matching.",
      "INTERVAL syntax: INTERVAL \x271 month\x27.",
      "Supports CTEs (WITH ... AS)."]⟩
  | .mysql =>
    ⟨"MySQL", "CURDATE()", "DATE_FORMAT(column, \x27%Y-%m-01\x27)", "CONCAT(a, b)",
     ["Use backticks for identifiers with special characters.",
      "LIKE is case-insensitive by default.",
      "INTERVAL syntax: INTERVAL 1 MONTH.",
      "Use IFNULL() instead of COALESCE() for two arguments."]⟩
  | .sqlite =>
    ⟨"SQLite", "date(\x27now\x27)", "strftime(\x27%Y-%m\x27, column)", "||",
     ["No native DATE type — dates stored as TEXT or INTEGER.",
      "Use strftime() for date manipulation.",
      "No RIGHT JOIN or FULL OUTER JOIN.",
      "Use COALESCE() for null handling."]⟩

/-- Embedding of `buildSystemPrompt` from prompt/system.ts (the template
literal, spelled out as concatenation). -/
def buildSystemPrompt (dialect : DatabaseDialect) (schemaText : String)
    (schemaName : String) : String :=
  let d := DIALECTS dialect
  "You are a SQL assistant for " ++ d.name ++
  ". Generate a SELECT query from the user\x27s question.\n" ++
  "The active schema is \"" ++ schemaName ++
  "\". NEVER prefix table names with the schema. Query tables directly (SELECT * FROM my_table)." ++
  (if dialect = .postgresql then
    " Do NOT add WHERE table_schema = \x27...\x27 to regular tables — only use table_schema when querying information_schema."
   else "") ++ "\n" ++
  "Rules: ONLY SELECT, include LIMIT 1000, respond with JSON only.\n" ++
  "When using GROUP BY, ALWAYS include an aggregate function (COUNT, SUM, AVG, etc.) as the second column so charts can render.\n" ++
  "Format: \x7b\"sql\":\"SELECT ...\",\"explanation\":\"brief\",\"chartType\":\"bar|line|pie|table|number\"\x7d\n" ++
  "chartType: number=single value, line=time series, bar=categories with values, pie=proportions with counts, table=raw data.\n" ++
  "Answer in the SAME LANGUAGE as the user.\n" ++
  "\n" ++
  d.name ++ " specifics:\n" ++
  "- Current date: " ++ d.currentDate ++ "\n" ++
  "- Date truncation: " ++ d.dateTrunc ++ "\n" ++
  "- String concatenation: " ++ d.stringConcat ++ "\n" ++
  String.intercalate "\n" (d.notes.map (fun n => "- " ++ n)) ++
  "\n\nSCHEMA:\n" ++ schemaText

inductive ChatRole | user | assistant
deriving DecidableEq, Repr

inductive LLMRole | system | user | assistant
deriving DecidableEq, Repr

structure LLMMessage where
  role : LLMRole
  content : String
deriving DecidableEq, Repr

/-- QueryResult from types.ts; row cell values are modelled as strings
(no claim inspects them). -/
structure QueryResult where
  sql : String
  explanation : String
  chartType : String
  columns : List String
  rows : List (List (String × String))
  rowCount : Nat
deriving DecidableEq, Repr

structure ChatMessage where
  role : ChatRole
  content : String
  data : Option QueryResult
deriving DecidableEq, Repr

def hexDigitChar (n : Nat) : Char := "0123456789abcdef".data.getD n '0'

/-- JSON.stringify escaping for one character. -/
def jsonEscapeChar (c : Char) : String :=
  if c = '"' then "\\\""
  else if c = '\\' then "\\\\"
  else if c = '\n' then "\\n"
  else if c = '\r' then "\\r"
  else if c = '\t' then "\\t"
  else if c = '\x08' then "\\b"
  else if c = '\x0c' then "\\f"
  else if c.val < 32 then
    "\\u" ++ ⟨[hexDigitChar (c.toNat / 4096 % 16), hexDigitChar (c.toNat / 256 % 16),
               hexDigitChar (c.toNat / 16 % 16), hexDigitChar (c.toNat % 16)]⟩
  else String.singleton c

/-- JSON.stringify of a string value. -/
def jsonStringify (s : String) : String :=
  "\"" ++ String.join (s.data.map jsonEscapeChar) ++ "\""

/-- Per-message content used by buildMessages: a user turn verbatim, an
assistant turn re-serialized as
`JSON.stringify({sql: data?.sql ?? "", explanation: content,
chartType: data?.chartType ?? "table"})`. -/
def serializeMsg (m : ChatMessage) : String :=
  match m.role with
  | .user => m.content
  | .assistant =>
    "\x7b\"sql\":" ++ jsonStringify ((m.data.map QueryResult.sql).getD "") ++
    ",\"explanation\":" ++ jsonStringify m.content ++
    ",\"chartType\":" ++ jsonStringify ((m.data.map QueryResult.chartType).getD "table") ++ "\x7d"

def chatRoleToLLM : ChatRole → LLMRole
  | .user => .user
  | .assistant => .assistant

/-- The history loop of `buildMessages`, walking the reversed history
(newest first) and stopping at the first message whose estimated cost
exceeds the remaining budget (`if (tokens > availableForHistory) break`).
Returns the kept messages in walk order with their serialized contents. -/
def selectHistory (avail : Int) : List ChatMessage → List (ChatRole × String)
  | [] => []
  | m :: rest =>
    let content := serializeMsg m
    let tokens := estimateTokens content
    if (tokens : Int) > avail then []
    else (m.role, content) :: selectHistory (avail - tokens) rest

structure BuildStats where
  systemTokens : Nat
  userTokens : Nat
  historyTokens : Nat
  historyMessages : Nat
  schemaTruncated : Bool
deriving DecidableEq, Repr

structure BuildResult where
  messages : List LLMMessage
  stats : BuildStats
deriving DecidableEq, Repr

/-- Embedding of `ChatDB.buildMessages` from chatdb.ts. -/
def buildMessages (dialect : DatabaseDialect) (schema : String)
    (history : List ChatMessage) (message : String) (maxTokens : Int)
    (schemaName : String) : BuildResult :=
  let responseReserve : Int := 256
  let systemPromptBase := buildSystemPrompt dialect "" schemaName
  let rulesTokens := estimateTokens systemPromptBase
  let userTokens := estimateTokens message
  let schemaBudget : Int := maxTokens - rulesTokens - userTokens - responseReserve - 50
  let tr := truncateSchema schema (max schemaBudget 200).toNat
  let systemPrompt := buildSystemPrompt dialect tr.1 schemaName
  let systemMsg : LLMMessage := ⟨.system, systemPrompt⟩
  let userMsg : LLMMessage := ⟨.user, message⟩
  let systemTokens := estimateTokens systemPrompt
  let usedTokens : Int := systemTokens + userTokens + responseReserve
  let availableForHistory : Int := maxTokens - usedTokens
  if availableForHistory ≤ 0 then
    ⟨[systemMsg, userMsg], ⟨systemTokens, userTokens, 0, 0, tr.2⟩⟩
  else
    let sel := selectHistory availableForHistory history.reverse
    let historyMsgs := (sel.map (fun p => LLMMessage.mk (chatRoleToLLM p.1) p.2)).reverse
    ⟨[systemMsg] ++ historyMsgs ++ [userMsg],
     ⟨systemTokens, userTokens, (sel.map (fun p => estimateTokens p.2)).sum,
      historyMsgs.length, tr.2⟩⟩

structure SchemaCacheEntry where
  text : String
  time : Int
deriving DecidableEq

def SchemaCacheMap := String → Option SchemaCacheEntry

def emptySchemaCache : SchemaCacheMap := fun _ => none

def cacheSet (c : SchemaCacheMap) (name : String) (e : SchemaCacheEntry) : SchemaCacheMap :=
  fun x => if x = name then some e else c x

structure CacheCallResult where
  text : String
  cache : SchemaCacheMap
  didFetch : Bool

/-- Embedding of `ChatDB.getCachedSchema`: return the cached text while
`now - cached.time < ttl`, otherwise fetch and overwrite the entry.  The
adapter call `this.db.getSchemaText(schemaName)` is the oracle `fetch`,
allowed to depend on the call time; `Date.now()` values are the `now`
arguments. -/
def getCachedSchema (ttl : Int) (fetch : String → Int → String)
    (c : SchemaCacheMap) (name : String) (now : Int) : CacheCallResult :=
  match c name with
  | some e =>
    if now - e.time < ttl then ⟨e.text, c, false⟩
    else
      let t := fetch name now
      ⟨t, cacheSet c name ⟨t, now⟩, true⟩
  | none =>
    let t := fetch name now
    ⟨t, cacheSet c name ⟨t, now⟩, true⟩

/-- Embedding of `ChatDB.refreshSchema`: `this.schemaCache.clear()`. -/
def refreshSchema (_ : SchemaCacheMap) : SchemaCacheMap := fun _ => none

/-- Embedding of the history append performed by `ChatDB.ask`: on success
(`outcome = some r`) push the user question and a synthetic assistant turn
carrying the structured result; a failed `query` throws before the push,
leaving the history unchanged. -/
def askStep (h : List ChatMessage) (message : String) (outcome : Option QueryResult) :
    List ChatMessage :=
  match outcome with
  | some r => h ++ [⟨.user, message, none⟩, ⟨.assistant, r.explanation, some r⟩]
  | none => h

inductive HistoryOp
  | ask (message : String) (outcome : Option QueryResult)
  | clearHistory

/-- A run of the stateful entry points against the internal history,
starting empty. -/
def runHistory (ops : List HistoryOp) : List ChatMessage :=
  ops.foldl
    (fun h op =>
      match op with
      | .ask m o => askStep h m o
      | .clearHistory => [])
    []

def otherRole : ChatRole → ChatRole
  | .user => .assistant
  | .assistant => .user

/-- Roles alternate, the first one being `expect`. -/
def altFrom : ChatRole → List ChatRole → Bool
  | _, [] => true
  | r, x :: xs => (x == r) && altFrom (otherRole r) xs

/-- Whether the character after the first `n` ones fails to be whitespace
(or the text already ended). -/
def nextNotSpace (l : List Char) (n : Nat) : Bool :=
  match l.drop n with
  | [] => true
  | c :: _ => !(jsIsSpace c)

/-- The claim's history-selection rule, written from the spec's words:
walk newest-to-oldest, include a message exactly when its estimated token
cost fits the remaining budget, and stop at the first message that does
not fit. -/
def specSelectHistory (avail : Int) : List ChatMessage → List (ChatRole × String)
  | [] => []
  | m :: rest =>
    let content := serializeMsg m
    let tokens := estimateTokens content
    if (tokens : Int) ≤ avail then (m.role, content) :: specSelectHistory (avail - tokens) rest
    else []

/-- The system prompt buildMessages ends up sending (schema truncated to
the clamped schema budget). -/
def builtSystemPrompt (dialect : DatabaseDialect) (schema message : String)
    (maxTokens : Int) (schemaName : String) : String :=
  buildSystemPrompt dialect
    (truncateSchema schema
      (max (maxTokens - (estimateTokens (buildSystemPrompt dialect "" schemaName) : Int) -
        (estimateTokens message : Int) - 256 - 50) 200).toNat).1
    schemaName

/-- The history budget left once the system message, the user message and
the response reserve are accounted for. -/
def initialHistoryBudget (dialect : DatabaseDialect) (schema message : String)
    (maxTokens : Int) (schemaName : String) : Int :=
  maxTokens -
    ((estimateTokens (builtSystemPrompt dialect schema message maxTokens schemaName) : Int) +
      (estimateTokens message : Int) + 256)

/-- Claim C5 as stated: the final message list is the system message, then
the greedily selected history (oldest-to-newest, assistant turns
re-serialized), then the user message. -/
abbrev claimC5Holds (dialect : DatabaseDialect) (schema : String)
    (history : List ChatMessage) (message : String) (maxTokens : Int)
    (schemaName : String) : Prop :=
  (buildMessages dialect schema history message maxTokens schemaName).messages =
    [LLMMessage.mk .system (builtSystemPrompt dialect schema message maxTokens schemaName)] ++
    ((specSelectHistory (initialHistoryBudget dialect schema message maxTokens schemaName)
        history.reverse).map (fun p => LLMMessage.mk (chatRoleToLLM p.1) p.2)).reverse ++
    [LLMMessage.mk .user message]

/-- The normalized text ensureLimit works on: trimmed, one trailing
semicolon stripped. -/
def normSQL (s : String) : List Char := stripTrailingSemi (jsTrimL s.data)

/-- Decidable form of "the final character is neither a semicolon nor
whitespace". -/
def lastCharOK (l : List Char) : Bool :=
  match l.getLast? with
  | some c => !(c == ';') && !(jsIsSpace c)
  | none => true

set_option maxRecDepth 400000

example : validateSQL "SELECT * FROM users" false = ⟨true, none⟩ := by decide

example : validateSQL "SELECT * FROM t WHERE note = \x27please DELETE this\x27" false =
    ⟨true, none⟩ := by decide

example : validateSQL "DELETE FROM users" false =
    ⟨false, some "Only SELECT queries are allowed."⟩ := by decide

example : validateSQL "SELECT * FROM users; DROP TABLE users;" false =
    ⟨false, some "Multiple statements are not allowed."⟩ := by decide

example : validateSQL "SELECT * FROM users WHERE COPY = 1" false =
    ⟨false, some "COPY operations are not allowed."⟩ := by decide

example : validateSQL "SELECT" false =
    ⟨false, some "Only SELECT queries are allowed."⟩ := by decide

example : validateSQL "SELECT*FROM t" false =
    ⟨false, some "Only SELECT queries are allowed."⟩ := by decide

example : validateSQL "DROP TABLE users" true = ⟨true, none⟩ := by decide

example : validateSQL "  SELECT * FROM users  " false = ⟨true, none⟩ := by decide

example : validateSQL "SELECT * FROM users;" false = ⟨true, none⟩ := by decide

example : ensureLimit "SELECT * FROM users" 1000 = "SELECT * FROM users LIMIT 1000" := by decide

example : ensureLimit "SELECT * FROM t" 50 = "SELECT * FROM t LIMIT 50" := by decide

example : ensureLimit "SELECT * FROM users LIMIT 10" 1000 = "SELECT * FROM users LIMIT 10" := by decide

example : ensureLimit "SELECT * FROM users limit 50" 1000 = "SELECT * FROM users limit 50" := by decide

example : ensureLimit "SELECT * FROM users;" 1000 = "SELECT * FROM users LIMIT 1000" := by decide

example : ensureLimit "SELECT * FROM users LIMIT 10;" 1000 = "SELECT * FROM users LIMIT 10" := by decide

example : ensureLimit "  SELECT * FROM users  " 1000 = "SELECT * FROM users LIMIT 1000" := by decide

example : ensureLimit "SELECT 1 LIMIT 5;;" 50 = "SELECT 1 LIMIT 5;" := by decide

example : ensureLimit "SELECT 1 LIMIT 5;" 50 = "SELECT 1 LIMIT 5" := by decide

example : ensureLimit ";" 50 = " LIMIT 50" := by decide

example : ensureLimit " LIMIT 50" 50 = "LIMIT 50" := by decide

example : estimateTokens "abcd" = 1 := by decide

example : estimateTokens "ab" = 1 := by decide

example : estimateTokens "abcde" = 2 := by decide

example : estimateTokens "" = 0 := by decide

example : truncateSchema "users(id bigint, name varchar)" 100 =
    ("users(id bigint, name varchar)", false) := by decide

example : truncateSchema "abcd" 1 = ("abcd", false) := by decide

example : truncateSchema "abcde" 1 =
    ("abc\n... (schema truncated to fit context)", true) := by decide

example : truncateSchema "ab\ncdefgh" 1 =
    ("ab\n... (schema truncated to fit context)", true) := by decide

example : truncateSchema "" 100 = ("", false) := by decide

example : schemaMarker.length = 38 := by decide

example : (truncateSchema ("ab" ++ schemaMarker) 1) = ("ab" ++ schemaMarker, true) := by decide

lemma select_data_eq : "SELECT".data = ['S', 'E', 'L', 'E', 'C', 'T'] := rfl

lemma with_data_eq : "WITH".data = ['W', 'I', 'T', 'H'] := rfl

lemma kwThenSpace_imp_ci {kw l : List Char} (h : kwThenSpace kw l = true) :
    ciStartsWith kw l = true := by
  unfold kwThenSpace at h
  simp only [Bool.and_eq_true] at h
  exact h.1

lemma shapeOK_imp_begins {l : List Char} (h : shapeOK l = true) :
    beginsSelectOrWith l = true := by
  unfold shapeOK at h
  unfold beginsSelectOrWith
  simp only [Bool.or_eq_true] at h ⊢
  rcases h with h' | h'
  · exact Or.inl (kwThenSpace_imp_ci h')
  · exact Or.inr (kwThenSpace_imp_ci h')

lemma validateSQL_shape_fail {s : String} (h : shapeOK (jsTrimL s.data) = false) :
    validateSQL s false = ⟨false, some "Only SELECT queries are allowed."⟩ := by
  simp [validateSQL, h]

lemma validateSQL_semi_fail {s : String} (h1 : shapeOK (jsTrimL s.data) = true)
    (h2 : semiBad (stripLitsL (jsTrimL s.data)) = true) :
    validateSQL s false = ⟨false, some "Multiple statements are not allowed."⟩ := by
  simp [validateSQL, h1, h2]

lemma ciStartsWith_select_not_with {l : List Char}
    (h : ciStartsWith "SELECT".data l = true) : ciStartsWith "WITH".data l = false := by
  rw [select_data_eq] at h
  rw [with_data_eq]
  cases l with
  | nil => simp [ciStartsWith] at h
  | cons c cs =>
    unfold ciStartsWith at h ⊢
    simp only [Bool.and_eq_true] at h
    have hc : ('S'.toUpper == c.toUpper) = true := h.1
    have hc' : c.toUpper = 'S' := by
      have := beq_iff_eq.1 hc
      simpa using this.symm
    simp [hc']

lemma ciStartsWith_with_not_select {l : List Char}
    (h : ciStartsWith "WITH".data l = true) : ciStartsWith "SELECT".data l = false := by
  rw [with_data_eq] at h
  rw [select_data_eq]
  cases l with
  | nil => simp [ciStartsWith] at h
  | cons c cs =>
    unfold ciStartsWith at h ⊢
    simp only [Bool.and_eq_true] at h
    have hc : ('W'.toUpper == c.toUpper) = true := h.1
    have hc' : c.toUpper = 'W' := by
      have := beq_iff_eq.1 hc
      simpa using this.symm
    simp [hc']

lemma kwThenSpace_false_of_nextNotSpace {kw l : List Char}
    (h : nextNotSpace l kw.length = true) : kwThenSpace kw l = false := by
  unfold kwThenSpace
  unfold nextNotSpace at h
  cases hd : l.drop kw.length with
  | nil => simp [hd]
  | cons c cs =>
    rw [hd] at h
    simp only [Bool.not_eq_true'] at h
    simp [hd, h]

/-- Claim C1, corrected: any input whose trimmed form does not begin with
SELECT or WITH (case-insensitive) is rejected, but the error text is
"Only SELECT queries are allowed.", not "only read queries allowed"; and
with allowWrites set, validateSQL accepts every input. -/

theorem c1_read_only_gate :
    (∀ s : String, beginsSelectOrWith (jsTrimL s.data) = false →
      validateSQL s false = ⟨false, some "Only SELECT queries are allowed."⟩) ∧
    (∀ s : String, validateSQL s true = ⟨true, none⟩) := by
  constructor
  · intro s h
    have hs : shapeOK (jsTrimL s.data) = false := by
      cases hs : shapeOK (jsTrimL s.data)
      · rfl
      · have := shapeOK_imp_begins hs
        rw [h] at this
        cases this
    exact validateSQL_shape_fail hs
  · intro s
    rfl

/-- Claim C1, counterexample to the stated error text: the guard rejects
"hello world" but with the message "Only SELECT queries are allowed.",
not "only read queries allowed". -/

theorem c1_counterexample :
    (validateSQL "hello world" false).valid = false ∧
    (validateSQL "hello world" false).error = some "Only SELECT queries are allowed." ∧
    (validateSQL "hello world" false).error ≠ some "only read queries allowed" := by
  decide

theorem c1_read_only_gate_witness :
    validateSQL "hello world" false = ⟨false, some "Only SELECT queries are allowed."⟩ ∧
    validateSQL "DROP TABLE users" true = ⟨true, none⟩ :=
  ⟨c1_read_only_gate.1 "hello world" (by decide),
   c1_read_only_gate.2 "DROP TABLE users"⟩

/-- Claim C10, confirmed: the statement-shape regex demands a whitespace
character right after the leading keyword, so a trimmed input beginning
with SELECT (or WITH) whose next character is missing or not whitespace is
rejected; in particular "SELECT" and "SELECT*FROM t". -/

theorem c10_requires_space_after_keyword :
    (∀ s : String,
      ciStartsWith "SELECT".data (jsTrimL s.data) = true →
      nextNotSpace (jsTrimL s.data) 6 = true →
      validateSQL s false = ⟨false, some "Only SELECT queries are allowed."⟩) ∧
    (∀ s : String,
      ciStartsWith "WITH".data (jsTrimL s.data) = true →
      nextNotSpace (jsTrimL s.data) 4 = true →
      validateSQL s false = ⟨false, some "Only SELECT queries are allowed."⟩) ∧
    validateSQL "SELECT" false = ⟨false, some "Only SELECT queries are allowed."⟩ ∧
    validateSQL "SELECT*FROM t" false = ⟨false, some "Only SELECT queries are allowed."⟩ := by
  refine ⟨?_, ?_, by decide, by decide⟩
  · intro s h1 h2
    apply validateSQL_shape_fail
    have e1 : kwThenSpace "SELECT".data (jsTrimL s.data) = false :=
      kwThenSpace_false_of_nextNotSpace (by simpa using h2)
    have e2 : kwThenSpace "WITH".data (jsTrimL s.data) = false := by
      simp [kwThenSpace, ciStartsWith_select_not_with h1]
    simp [shapeOK, e1, e2]
  · intro s h1 h2
    apply validateSQL_shape_fail
    have e1 : kwThenSpace "WITH".data (jsTrimL s.data) = false :=
      kwThenSpace_false_of_nextNotSpace (by simpa using h2)
    have e2 : kwThenSpace "SELECT".data (jsTrimL s.data) = false := by
      simp [kwThenSpace, ciStartsWith_with_not_select h1]
    simp [shapeOK, e1, e2]

theorem c10_witness :
    validateSQL "SELECT*FROM t" false = ⟨false, some "Only SELECT queries are allowed."⟩ :=
  c10_requires_space_after_keyword.1 "SELECT*FROM t" (by decide) (by decide)

/-- Claim C3, confirmed: once the shape check passes, a semicolon in the
literal-stripped text anywhere before its final character yields the
multi-statement rejection (so the semicolon check precedes the keyword
check and runs on the placeholder-replaced text), and the given injection
attempt is rejected with an error containing "Multiple statements". -/

theorem c3_multi_statement :
    (∀ s : String, shapeOK (jsTrimL s.data) = true →
      semiBad (stripLitsL (jsTrimL s.data)) = true →
      validateSQL s false = ⟨false, some "Multiple statements are not allowed."⟩) ∧
    validateSQL "SELECT * FROM users; DROP TABLE users;" false =
      ⟨false, some "Multiple statements are not allowed."⟩ ∧
    "Multiple statements".data <:+: "Multiple statements are not allowed.".data :=
  ⟨fun _ h1 h2 => validateSQL_semi_fail h1 h2, by decide, by decide⟩

theorem c3_multi_statement_witness :
    validateSQL "SELECT 1; SELECT 2" false =
      ⟨false, some "Multiple statements are not allowed."⟩ :=
  c3_multi_statement.1 "SELECT 1; SELECT 2" (by decide) (by decide)

/-- Claim C2, counterexample to the stated universal: "DELETE FROM users"
contains DELETE as a whole word outside any quoted literal, yet the error
is the statement-shape message, which does not name the keyword (the shape
check runs first). -/

theorem c2_counterexample :
    hasWordBounded "DELETE".data (upperL (stripLitsL (jsTrimL "DELETE FROM users".data))) = true ∧
    (validateSQL "DELETE FROM users" false).valid = false ∧
    (validateSQL "DELETE FROM users" false).error = some "Only SELECT queries are allowed." ∧
    ¬ ("DELETE".data <:+: "Only SELECT queries are allowed.".data) := by
  decide

/-- Claim C2, amended: for inputs that pass the shape and multi-statement
checks, a blocked keyword occurring as a whole word in the
literal-stripped, uppercased text is rejected with an error naming a
blocked keyword that does so occur; a keyword only inside a single-quoted
literal does not trigger rejection. -/

theorem c2_blocked_keywords :
    (∀ s : String, shapeOK (jsTrimL s.data) = true →
      semiBad (stripLitsL (jsTrimL s.data)) = false →
      (∃ kw ∈ BLOCKED_KEYWORDS,
        hasWordBounded kw.data (upperL (stripLitsL (jsTrimL s.data))) = true) →
      ∃ kw ∈ BLOCKED_KEYWORDS,
        hasWordBounded kw.data (upperL (stripLitsL (jsTrimL s.data))) = true ∧
        validateSQL s false = ⟨false, some (kw ++ " operations are not allowed.")⟩) ∧
    validateSQL "SELECT * FROM t WHERE note = \x27please DELETE this\x27" false =
      ⟨true, none⟩ := by
  constructor
  · intro s h1 h2 h3
    have hsome :
        (BLOCKED_KEYWORDS.find?
          (fun kw => hasWordBounded kw.data (upperL (stripLitsL (jsTrimL s.data))))).isSome :=
      List.find?_isSome.2 h3
    obtain ⟨kw0, hfind⟩ := Option.isSome_iff_exists.1 hsome
    have hp := @List.find?_some String
      (fun kw => hasWordBounded (String.data kw) (upperL (stripLitsL (jsTrimL s.data))))
      kw0 BLOCKED_KEYWORDS hfind
    refine ⟨kw0, List.mem_of_find?_eq_some hfind, by simpa using hp, ?_⟩
    simp [validateSQL, h1, h2, hfind]
  · decide

theorem c2_blocked_keywords_witness :
    ∃ kw ∈ BLOCKED_KEYWORDS,
      hasWordBounded kw.data
        (upperL (stripLitsL (jsTrimL "SELECT * FROM t WHERE COPY = 1".data))) = true ∧
      validateSQL "SELECT * FROM t WHERE COPY = 1" false =
        ⟨false, some (kw ++ " operations are not allowed.")⟩ :=
  c2_blocked_keywords.1 "SELECT * FROM t WHERE COPY = 1" (by decide) (by decide) (by decide)

lemma findIdx?_some_spec (p : Char → Bool) :
    ∀ (l : List Char) (i j : Nat), List.findIdx? p l i = some j →
      ∃ k, j = i + k ∧ (∃ c, l[k]? = some c ∧ p c = true) ∧
        ∀ m, m < k → ∀ c, l[m]? = some c → p c = false := by
  intro l
  induction l with
  | nil => intro i j h; simp [List.findIdx?_nil] at h
  | cons x xs ih =>
    intro i j h
    rw [List.findIdx?_cons] at h
    by_cases hx : p x = true
    · rw [if_pos hx] at h
      have hij : i = j := by simpa using h
      subst hij
      exact ⟨0, by omega, ⟨x, by simp, hx⟩, fun m hm => absurd hm (Nat.not_lt_zero m)⟩
    · rw [if_neg hx] at h
      obtain ⟨k, hk, ⟨c, hgc, hpc⟩, hmin⟩ := ih (i + 1) j h
      refine ⟨k + 1, by omega, ⟨c, by simpa using hgc, hpc⟩, ?_⟩
      intro m hm d hg
      cases m with
      | zero =>
        have : d = x := by simpa using hg.symm
        subst this
        exact Bool.not_eq_true _ ▸ (by simpa using hx)
      | succ m' =>
        exact hmin m' (by omega) d (by simpa using hg)

lemma findIdx?_none_spec (p : Char → Bool) :
    ∀ (l : List Char) (i : Nat), List.findIdx? p l i = none →
      ∀ c ∈ l, p c = false := by
  intro l
  induction l with
  | nil => intro i _ c hc; cases hc
  | cons x xs ih =>
    intro i h c hc
    rw [List.findIdx?_cons] at h
    by_cases hx : p x = true
    · rw [if_pos hx] at h; cases h
    · rw [if_neg hx] at h
      rcases hc with _ | hc
      · simpa using hx
      · exact ih (i + 1) h c (by assumption)

lemma findIdx?_eq_none_of (p : Char → Bool) :
    ∀ (l : List Char) (i : Nat), (∀ c ∈ l, p c = false) →
      List.findIdx? p l i = none := by
  intro l
  induction l with
  | nil => intro i _; simp [List.findIdx?_nil]
  | cons x xs ih =>
    intro i h
    rw [List.findIdx?_cons]
    rw [if_neg (by simp [h x (by simp)])]
    exact ih (i + 1) (fun c hc => h c (by simp [hc]))

lemma jsLastIndexOf_of_not_mem {l : List Char} {c : Char} (h : c ∉ l) :
    jsLastIndexOf l c = -1 := by
  unfold jsLastIndexOf
  rw [findIdx?_eq_none_of]
  intro d hd
  simp only [decide_eq_false_iff_not]
  intro hdc
  exact h (hdc ▸ List.mem_reverse.1 hd)

lemma jsSliceTo_neg_one (l : List Char) : jsSliceTo l (-1) = l.dropLast := by
  unfold jsSliceTo
  rw [if_pos (by omega)]
  rw [List.dropLast_eq_take]
  congr 1
  omega

lemma lastNewline_decomp (l : List Char) (h : '\n' ∈ l) :
    ∃ p, l[p]? = some '\n' ∧ (∀ d ∈ l.drop (p + 1), d ≠ '\n') ∧
      jsSliceTo l (jsLastIndexOf l '\n') = l.take p := by
  cases hfi : List.findIdx? (fun d => decide (d = '\n')) l.reverse 0 with
  | none =>
    have := findIdx?_none_spec _ l.reverse 0 hfi '\n' (List.mem_reverse.2 h)
    simp at this
  | some j =>
    obtain ⟨k, hk, ⟨c, hgc, hpc⟩, hmin⟩ := findIdx?_some_spec _ l.reverse 0 j hfi
    obtain rfl : j = k := by omega
    have hc : c = '\n' := by simpa using hpc
    subst hc
    have hjlen : j < l.length := by
      have := List.getElem?_eq_some.1 hgc
      simpa using this.1
    refine ⟨l.length - 1 - j, ?_, ?_, ?_⟩
    · rw [← List.getElem?_reverse (by simpa using hjlen)] at *
      exact hgc
    · intro d hd hdc
      subst hdc
      obtain ⟨m, hm⟩ := List.mem_iff_getElem?.1 hd
      rw [List.getElem?_drop] at hm
      have hqlen : l.length - 1 - j + 1 + m < l.length := by
        have := List.getElem?_eq_some.1 hm
        exact this.1
      have hrev : l.reverse[l.length - 1 - (l.length - 1 - j + 1 + m)]? = some '\n' := by
        rw [List.getElem?_reverse (by omega)]
        have : l.length - 1 - (l.length - 1 - (l.length - 1 - j + 1 + m)) =
            l.length - 1 - j + 1 + m := by omega
        rw [this]
        exact hm
      exact absurd hrev
        (by
          have hlt : l.length - 1 - (l.length - 1 - j + 1 + m) < j := by omega
          intro hcon
          have := hmin _ hlt '\n' hcon
          simp at this)
    · have hval : jsLastIndexOf l '\n' = (l.length : Int) - 1 - j := by
        unfold jsLastIndexOf
        rw [hfi]
      unfold jsSliceTo
      rw [hval, if_neg (by omega)]
      congr 1
      omega

lemma jsSliceTo_length_le (l : List Char) (e : Int) : (jsSliceTo l e).length ≤ l.length := by
  unfold jsSliceTo
  split <;> simp

/-- Claim C7, counterexample: with budget 1 token, "abcde" is replaced by a
41-character string (the marker is longer than what was cut), and a text
that already ends with the marker is returned verbatim yet flagged
truncated, refuting both "never longer" and the "iff". -/

theorem c7_counterexample :
    "abcde".length < (truncateSchema "abcde" 1).1.length ∧
    (truncateSchema ("ab" ++ schemaMarker) 1).2 = true ∧
    (truncateSchema ("ab" ++ schemaMarker) 1).1 = "ab" ++ schemaMarker := by
  decide

/-- Claim C7, amended: truncateSchema returns the input unchanged exactly
when it fits the character budget (truncated = false iff length ≤ 4n, and
then the text is returned as is); a truncated result is bounded by the
budget plus the 38-character marker, but may exceed a short input. -/

theorem c7_truncate_bounds : ∀ (text : String) (n : Nat),
    ((truncateSchema text n).2 = false ↔ text.length ≤ n * 4) ∧
    ((truncateSchema text n).2 = false → (truncateSchema text n).1 = text) ∧
    ((truncateSchema text n).2 = true → (truncateSchema text n).1.length ≤ n * 4 + 38) := by
  intro text n
  unfold truncateSchema
  by_cases h : text.length ≤ n * 4
  · rw [if_pos h]
    exact ⟨by simpa using h, fun _ => rfl, by simp⟩
  · rw [if_neg h]
    refine ⟨by simpa using h, by simp, fun _ => ?_⟩
    show (String.mk (jsSliceTo (text.data.take (n * 4)) _) ++ schemaMarker).length ≤ n * 4 + 38
    have hlen : ∀ (a : List Char), (String.mk a ++ schemaMarker).length = a.length + 38 := by
      intro a
      show (String.mk a ++ schemaMarker).data.length = a.length + 38
      rw [String.data_append]
      simp [schemaMarker]
    rw [hlen]
    have h1 := jsSliceTo_length_le (text.data.take (n * 4))
      (jsLastIndexOf (text.data.take (n * 4)) '\n')
    have h2 : (text.data.take (n * 4)).length ≤ n * 4 := by simp
    omega

theorem c7_truncate_bounds_witness :
    (truncateSchema "abcdefgh" 1).1.length ≤ 1 * 4 + 38 :=
  (c7_truncate_bounds "abcdefgh" 1).2.2 (by decide)

/-- Claim C8, counterexample to the "degenerates to character 0" clause:
"abcdefgh" with budget 1 token has no newline within the 4-character
budget, yet the kept slice is "abc" (the budget slice minus its final
character, JavaScript slice(0, -1)), not the empty string. -/

theorem c8_counterexample :
    ('\n' ∉ "abcdefgh".data.take 4) ∧
    (truncateSchema "abcdefgh" 1).1 = "abc" ++ schemaMarker ∧
    (truncateSchema "abcdefgh" 1).1 ≠ "" ++ schemaMarker := by
  decide

/-- Claim C8, amended: a fitting text is returned unchanged; an overlong
text is flagged truncated and the kept slice is the character-budget slice
cut back to just before its last newline (no line is cut in half, and
nothing after that newline survives); when the slice holds no newline the
kept part is the slice minus its final character — almost the whole
budget, not character 0. -/

theorem c8_truncate_cases : ∀ (text : String) (n : Nat),
    (text.length ≤ n * 4 → truncateSchema text n = (text, false)) ∧
    (n * 4 < text.length →
      (truncateSchema text n).2 = true ∧
      ('\n' ∈ text.data.take (n * 4) →
        ∃ p, (text.data.take (n * 4))[p]? = some '\n' ∧
          (∀ d ∈ (text.data.take (n * 4)).drop (p + 1), d ≠ '\n') ∧
          (truncateSchema text n).1 =
            String.mk ((text.data.take (n * 4)).take p) ++ schemaMarker) ∧
      ('\n' ∉ text.data.take (n * 4) →
        (truncateSchema text n).1 =
          String.mk ((text.data.take (n * 4)).dropLast) ++ schemaMarker)) := by
  intro text n
  constructor
  · intro h
    unfold truncateSchema
    rw [if_pos h]
  · intro h
    have hno : ¬ text.length ≤ n * 4 := by omega
    refine ⟨?_, ?_, ?_⟩
    · unfold truncateSchema
      rw [if_neg hno]
    · intro hmem
      obtain ⟨p, hp, hafter, hslice⟩ := lastNewline_decomp (text.data.take (n * 4)) hmem
      refine ⟨p, hp, hafter, ?_⟩
      unfold truncateSchema
      rw [if_neg hno]
      simp only
      rw [hslice]
    · intro hmem
      unfold truncateSchema
      rw [if_neg hno]
      simp only
      rw [jsLastIndexOf_of_not_mem hmem, jsSliceTo_neg_one]

theorem c8_truncate_cases_witness :
    (truncateSchema "abcdefgh" 1).1 =
      String.mk (("abcdefgh".data.take (1 * 4)).dropLast) ++ schemaMarker :=
  ((c8_truncate_cases "abcdefgh" 1).2 (by decide)).2.2 (by decide)

/-- Claim C6, confirmed: starting from an empty cache, the first resolution
fetches; a second within the TTL window returns the identical text without
fetching; a resolution at age ≥ TTL fetches again; a resolution right
after refreshSchema fetches again; and in general a call is served from
the cache exactly when an entry exists with now - capturedAt < TTL. -/

theorem c6_schema_cache (ttl : Int) (fetch : String → Int → String) (name : String)
    (t1 t2 t3 : Int) (h2 : t2 - t1 < ttl) (h3 : ttl ≤ t3 - t1) :
    (getCachedSchema ttl fetch emptySchemaCache name t1).didFetch = true ∧
    (getCachedSchema ttl fetch
      (getCachedSchema ttl fetch emptySchemaCache name t1).cache name t2).text =
      (getCachedSchema ttl fetch emptySchemaCache name t1).text ∧
    (getCachedSchema ttl fetch
      (getCachedSchema ttl fetch emptySchemaCache name t1).cache name t2).didFetch = false ∧
    (getCachedSchema ttl fetch
      (getCachedSchema ttl fetch
        (getCachedSchema ttl fetch emptySchemaCache name t1).cache name t2).cache
      name t3).didFetch = true ∧
    (getCachedSchema ttl fetch
      (refreshSchema (getCachedSchema ttl fetch emptySchemaCache name t1).cache)
      name t2).didFetch = true ∧
    (∀ (c : SchemaCacheMap) (now : Int),
      (getCachedSchema ttl fetch c name now).didFetch = false ↔
        ∃ e, c name = some e ∧ now - e.time < ttl) := by
  have hr1 : getCachedSchema ttl fetch emptySchemaCache name t1 =
      ⟨fetch name t1, cacheSet emptySchemaCache name ⟨fetch name t1, t1⟩, true⟩ := by
    simp [getCachedSchema, emptySchemaCache]
  have hlook : cacheSet emptySchemaCache name ⟨fetch name t1, t1⟩ name =
      some ⟨fetch name t1, t1⟩ := by
    simp [cacheSet]
  have hr2 : getCachedSchema ttl fetch
      (cacheSet emptySchemaCache name ⟨fetch name t1, t1⟩) name t2 =
      ⟨fetch name t1, cacheSet emptySchemaCache name ⟨fetch name t1, t1⟩, false⟩ := by
    unfold getCachedSchema
    rw [hlook]
    simp only
    rw [if_pos (by simpa using h2)]
  refine ⟨by rw [hr1], ?_, ?_, ?_, ?_, ?_⟩
  · rw [hr1]
    simp only
    rw [hr2]
  · rw [hr1]
    simp only
    rw [hr2]
  · rw [hr1]
    simp only
    rw [hr2]
    simp only
    unfold getCachedSchema
    rw [hlook]
    simp only
    rw [if_neg (by simp; omega)]
  · rw [hr1]
    simp [getCachedSchema, refreshSchema]
  · intro c now
    unfold getCachedSchema
    cases hc : c name with
    | none => simp
    | some e =>
      simp only
      by_cases hv : now - e.time < ttl
      · rw [if_pos hv]
        simp only
        constructor
        · intro _
          exact ⟨e, rfl, hv⟩
        · intro _
          trivial
      · rw [if_neg hv]
        simp only
        constructor
        · intro hcon
          cases hcon
        · rintro ⟨e', he', hv'⟩
          cases he'
          exact absurd hv' hv

theorem c6_schema_cache_witness :
    (getCachedSchema 100 (fun n t => n ++ Nat.repr t.toNat) emptySchemaCache "public" 0).didFetch
      = true ∧
    (getCachedSchema 100 (fun n t => n ++ Nat.repr t.toNat)
      (getCachedSchema 100 (fun n t => n ++ Nat.repr t.toNat)
        emptySchemaCache "public" 0).cache "public" 50).didFetch = false :=
  ⟨(c6_schema_cache 100 (fun n t => n ++ Nat.repr t.toNat) "public" 0 50 100
      (by decide) (by decide)).1,
   (c6_schema_cache 100 (fun n t => n ++ Nat.repr t.toNat) "public" 0 50 100
      (by decide) (by decide)).2.2.1⟩

lemma otherRole_otherRole (r : ChatRole) : otherRole (otherRole r) = r := by
  cases r <;> rfl

lemma altFrom_append (xs ys : List ChatRole) (r : ChatRole) :
    altFrom r (xs ++ ys) =
      (altFrom r xs && altFrom (if xs.length % 2 = 0 then r else otherRole r) ys) := by
  induction xs generalizing r with
  | nil => simp [altFrom]
  | cons x xs ih =>
    simp only [List.cons_append, altFrom, List.length_cons, List.append_eq]
    rw [ih (otherRole r)]
    by_cases hp : xs.length % 2 = 0
    · have hp' : (xs.length + 1) % 2 ≠ 0 := by omega
      simp [hp, hp', Bool.and_assoc]
    · have hp' : (xs.length + 1) % 2 = 0 := by omega
      simp [hp, hp', otherRole_otherRole, Bool.and_assoc]

lemma runHistory_step_preserves (h : List ChatMessage) (op : HistoryOp)
    (h1 : altFrom .user (h.map ChatMessage.role) = true)
    (h2 : h.length % 2 = 0) :
    altFrom .user
      ((match op with
        | .ask m o => askStep h m o
        | .clearHistory => ([] : List ChatMessage)).map ChatMessage.role) = true ∧
    (match op with
      | .ask m o => askStep h m o
      | .clearHistory => ([] : List ChatMessage)).length % 2 = 0 := by
  cases op with
  | clearHistory => exact ⟨rfl, rfl⟩
  | ask m o =>
    cases o with
    | none => exact ⟨h1, h2⟩
    | some r =>
      simp only [askStep, List.map_append, List.length_append]
      constructor
      · rw [altFrom_append]
        have hlen : (h.map ChatMessage.role).length % 2 = 0 := by
          simpa using h2
        rw [if_pos hlen]
        simp [h1]
        decide
      · simp
        omega

lemma runHistory_foldl_invariant (ops : List HistoryOp) :
    ∀ (h : List ChatMessage),
      altFrom .user (h.map ChatMessage.role) = true → h.length % 2 = 0 →
      altFrom .user
        ((ops.foldl
          (fun h op =>
            match op with
            | .ask m o => askStep h m o
            | .clearHistory => []) h).map ChatMessage.role) = true ∧
      (ops.foldl
        (fun h op =>
          match op with
          | .ask m o => askStep h m o
          | .clearHistory => []) h).length % 2 = 0 := by
  induction ops with
  | nil => intro h h1 h2; exact ⟨h1, h2⟩
  | cons op ops ih =>
    intro h h1 h2
    rw [List.foldl_cons]
    obtain ⟨g1, g2⟩ := runHistory_step_preserves h op h1 h2
    exact ih _ g1 g2

/-- Claim C9, confirmed: after any sequence of ask and clearHistory calls
the stateful history alternates strictly user, assistant, user, ...
(in particular its length is even); a successful ask appends exactly the
user question and one synthetic assistant turn carrying the structured
result, a failed ask appends nothing, and clearHistory empties the
history. -/

theorem c9_history_invariant :
    (∀ ops : List HistoryOp,
      altFrom .user ((runHistory ops).map ChatMessage.role) = true ∧
      (runHistory ops).length % 2 = 0) ∧
    (∀ (h : List ChatMessage) (m : String) (r : QueryResult),
      askStep h m (some r) =
        h ++ [⟨.user, m, none⟩, ⟨.assistant, r.explanation, some r⟩]) ∧
    (∀ (h : List ChatMessage) (m : String), askStep h m none = h) ∧
    (∀ ops : List HistoryOp, runHistory (ops ++ [.clearHistory]) = []) := by
  refine ⟨?_, fun _ _ _ => rfl, fun _ _ => rfl, ?_⟩
  · intro ops
    exact runHistory_foldl_invariant ops [] rfl rfl
  · intro ops
    unfold runHistory
    rw [List.foldl_append]
    rfl

lemma selectHistory_eq_spec : ∀ (avail : Int) (l : List ChatMessage),
    selectHistory avail l = specSelectHistory avail l := by
  intro avail l
  induction l generalizing avail with
  | nil => rfl
  | cons m rest ih =>
    simp only [selectHistory, specSelectHistory]
    by_cases h : (estimateTokens (serializeMsg m) : Int) ≤ avail
    · rw [if_neg (by omega), if_pos h, ih]
    · rw [if_pos (by omega), if_neg h]

/-- Claim C5, counterexample to the stated packing rule: with the context
window sized so that the history budget is exactly zero and a zero-cost
(empty) user message as the newest history entry, the spec's walk would
include that message (cost 0 fits budget 0), but the code's early return
for a non-positive budget drops all history. -/

theorem c5_counterexample :
    ¬ claimC5Holds .sqlite "" [⟨.user, "", none⟩] ""
      ((estimateTokens (buildSystemPrompt .sqlite "" "main") : Int) + 256) "main" := by
  decide

/-- Claim C5, amended: provided the initial history budget is positive,
messages are walked newest-to-oldest, included exactly while they fit,
walking stops at the first misfit, and the kept messages appear
oldest-to-newest between the system and user messages; when the initial
budget is zero or negative the history is skipped wholesale (even a
zero-cost message that would fit a zero budget); assistant turns are
re-serialized as the compact JSON object {sql, explanation, chartType}. -/

theorem c5_history_packing :
    (∀ (dialect : DatabaseDialect) (schema : String) (history : List ChatMessage)
        (message : String) (maxTokens : Int) (schemaName : String),
      0 < initialHistoryBudget dialect schema message maxTokens schemaName →
      claimC5Holds dialect schema history message maxTokens schemaName) ∧
    (∀ (dialect : DatabaseDialect) (schema : String) (history : List ChatMessage)
        (message : String) (maxTokens : Int) (schemaName : String),
      initialHistoryBudget dialect schema message maxTokens schemaName ≤ 0 →
      (buildMessages dialect schema history message maxTokens schemaName).messages =
        [LLMMessage.mk .system (builtSystemPrompt dialect schema message maxTokens schemaName),
         LLMMessage.mk .user message]) ∧
    (∀ (c : String) (r : QueryResult),
      serializeMsg ⟨.assistant, c, some r⟩ =
        "\x7b\"sql\":" ++ jsonStringify r.sql ++ ",\"explanation\":" ++ jsonStringify c ++
        ",\"chartType\":" ++ jsonStringify r.chartType ++ "\x7d") := by
  refine ⟨?_, ?_, fun _ _ => rfl⟩
  · intro dialect schema history message maxTokens schemaName h
    have hne : ¬ (initialHistoryBudget dialect schema message maxTokens schemaName ≤ 0) := by
      omega
    unfold claimC5Holds buildMessages
    simp only [initialHistoryBudget, builtSystemPrompt] at hne ⊢
    rw [if_neg hne]
    simp only [List.singleton_append, List.cons_append, List.nil_append]
    rw [selectHistory_eq_spec]
  · intro dialect schema history message maxTokens schemaName h
    unfold buildMessages
    simp only [initialHistoryBudget, builtSystemPrompt] at h
    rw [if_pos h]
    rfl

theorem c5_history_packing_witness :
    claimC5Holds .sqlite "" [⟨.user, "how many users signed up last week?", none⟩]
      "and this week?" 100000 "main" :=
  c5_history_packing.1 .sqlite "" [⟨.user, "how many users signed up last week?", none⟩]
    "and this week?" 100000 "main" (by decide)

lemma mem_jsWhitespace_of_space {c : Char} (h : jsIsSpace c = true) : c ∈ jsWhitespace := by
  simpa [jsIsSpace, List.contains] using h

lemma isDigit_not_space {c : Char} (h : c.isDigit = true) : jsIsSpace c = false := by
  cases hs : jsIsSpace c
  · rfl
  · have hm := mem_jsWhitespace_of_space hs
    fin_cases hm <;> exact absurd h (by decide)

lemma isDigit_ne_semi {c : Char} (h : c.isDigit = true) : c ≠ ';' := by
  intro hc
  subst hc
  exact absurd h (by decide)

lemma space_toUpper_ne_L {c : Char} (h : jsIsSpace c = true) : c.toUpper ≠ 'L' := by
  have hm := mem_jsWhitespace_of_space h
  fin_cases hm <;> decide

lemma dropWhile_head_not (p : Char → Bool) (l : List Char) {c : Char}
    (h : (l.dropWhile p).head? = some c) : p c = false := by
  induction l with
  | nil => simp at h
  | cons a t ih =>
    rw [List.dropWhile_cons] at h
    by_cases hp : p a = true
    · rw [if_pos hp] at h
      exact ih h
    · rw [if_neg hp] at h
      have : a = c := by simpa using h
      subst this
      simpa using hp

lemma dropWhile_eq_self_of (p : Char → Bool) (l : List Char)
    (h : ∀ c, l.head? = some c → p c = false) : l.dropWhile p = l := by
  cases l with
  | nil => rfl
  | cons a t =>
    rw [List.dropWhile_cons, if_neg]
    simp [h a rfl]

lemma getLast?_dropWhile_of_ne_nil (p : Char → Bool) (l : List Char)
    (h : l.dropWhile p ≠ []) : (l.dropWhile p).getLast? = l.getLast? := by
  induction l with
  | nil => simp at h
  | cons a t ih =>
    rw [List.dropWhile_cons] at h ⊢
    by_cases hp : p a = true
    · rw [if_pos hp] at h ⊢
      cases ht : t with
      | nil => rw [ht] at h; simp at h
      | cons b t' =>
        rw [← ht]
        rw [ht, List.getLast?_cons_cons, ← ht]
        exact ih h
    · rw [if_neg hp]

lemma jsTrimL_getLast_not_space {l : List Char} {c : Char}
    (h : (jsTrimL l).getLast? = some c) : jsIsSpace c = false := by
  unfold jsTrimL at h
  rw [List.getLast?_reverse] at h
  exact dropWhile_head_not _ _ h

lemma jsTrimL_head_not_space {l : List Char} {c : Char}
    (h : (jsTrimL l).head? = some c) : jsIsSpace c = false := by
  unfold jsTrimL at h
  rw [List.head?_reverse] at h
  have hne : (l.dropWhile jsIsSpace).reverse.dropWhile jsIsSpace ≠ [] := by
    intro hnil
    rw [hnil] at h
    simp at h
  rw [getLast?_dropWhile_of_ne_nil _ _ hne, List.getLast?_reverse] at h
  exact dropWhile_head_not _ _ h

lemma jsTrimL_eq_self {l : List Char}
    (h1 : ∀ c, l.head? = some c → jsIsSpace c = false)
    (h2 : ∀ c, l.getLast? = some c → jsIsSpace c = false) : jsTrimL l = l := by
  unfold jsTrimL
  rw [dropWhile_eq_self_of _ _ h1]
  rw [dropWhile_eq_self_of _ _ (fun c hc => h2 c (by rwa [List.head?_reverse] at hc))]
  exact List.reverse_reverse l

lemma head?_dropLast {l : List Char} (h : l.dropLast ≠ []) :
    l.dropLast.head? = l.head? := by
  match l with
  | [] => simp at h
  | [a] => simp at h
  | a :: b :: t => rfl

lemma stripTrailingSemi_head? {l : List Char} (h : stripTrailingSemi l ≠ []) :
    (stripTrailingSemi l).head? = l.head? := by
  unfold stripTrailingSemi at h ⊢
  by_cases hc : l.getLast? = some ';'
  · rw [if_pos hc] at h ⊢
    exact head?_dropLast h
  · rw [if_neg hc]

lemma digitChar_isDigit {m : Nat} (h : m < 10) : (Nat.digitChar m).isDigit = true := by
  interval_cases m <;> decide

lemma toDigitsCore_digits : ∀ (fuel n : Nat) (ds : List Char),
    (∀ c ∈ ds, c.isDigit = true) → ∀ c ∈ Nat.toDigitsCore 10 fuel n ds, c.isDigit = true := by
  intro fuel
  induction fuel with
  | zero =>
    intro n ds h c hc
    rw [Nat.toDigitsCore] at hc
    exact h c hc
  | succ f ih =>
    intro n ds h c hc
    rw [Nat.toDigitsCore] at hc
    by_cases h0 : n / 10 = 0
    · rw [if_pos h0] at hc
      rcases hc with _ | hc
      · exact digitChar_isDigit (Nat.mod_lt _ (by norm_num))
      · exact h c (by assumption)
    · rw [if_neg h0] at hc
      refine ih (n / 10) _ ?_ c hc
      intro c' hc'
      rcases hc' with _ | hc'
      · exact digitChar_isDigit (Nat.mod_lt _ (by norm_num))
      · exact h c' (by assumption)

lemma toDigitsCore_ne_nil_of_ne_nil : ∀ (fuel n : Nat) (ds : List Char),
    ds ≠ [] → Nat.toDigitsCore 10 fuel n ds ≠ [] := by
  intro fuel
  induction fuel with
  | zero =>
    intro n ds h
    rw [Nat.toDigitsCore]
    exact h
  | succ f ih =>
    intro n ds h
    rw [Nat.toDigitsCore]
    by_cases h0 : n / 10 = 0
    · rw [if_pos h0]
      simp
    · rw [if_neg h0]
      exact ih (n / 10) _ (by simp)

lemma repr_data_ne_nil (n : Nat) : (Nat.repr n).data ≠ [] := by
  show (Nat.toDigits 10 n).asString.data ≠ []
  unfold Nat.toDigits
  show Nat.toDigitsCore 10 (n + 1) n [] ≠ []
  rw [Nat.toDigitsCore]
  by_cases h0 : n / 10 = 0
  · rw [if_pos h0]
    simp
  · rw [if_neg h0]
    exact toDigitsCore_ne_nil_of_ne_nil n (n / 10) _ (by simp)

lemma repr_data_digits (n : Nat) : ∀ c ∈ (Nat.repr n).data, c.isDigit = true := by
  intro c hc
  have : (Nat.repr n).data = Nat.toDigitsCore 10 (n + 1) n [] := rfl
  rw [this] at hc
  exact toDigitsCore_digits (n + 1) n [] (by intro c' hc'; cases hc') c hc

lemma limit_suffix_data (n : Nat) :
    ((" LIMIT " : String) ++ toString n).data =
      ' ' :: 'L' :: 'I' :: 'M' :: 'I' :: 'T' :: ' ' :: (Nat.repr n).data := by
  rw [String.data_append]
  rfl

lemma hasLimit_append_suffix (t : List Char) (n : Nat) :
    hasLimitL (t ++ (' ' :: 'L' :: 'I' :: 'M' :: 'I' :: 'T' :: ' ' :: (Nat.repr n).data)) = true := by
  apply List.any_eq_true.2
  have hrep : 0 < (Nat.repr n).data.length := List.length_pos.2 (repr_data_ne_nil n)
  refine ⟨t.length + 1, List.mem_range.2 ?_, ?_⟩
  · simp only [List.length_append, List.length_cons]
    omega
  unfold limitMatchAt
  rw [Bool.and_eq_true, Bool.and_eq_true]
  refine ⟨⟨?_, ?_⟩, ?_⟩
  · unfold boundaryBefore
    have hsp : (t ++ ' ' :: 'L' :: 'I' :: 'M' :: 'I' :: 'T' :: ' ' :: (Nat.repr n).data).getD
        (t.length + 1 - 1) ' ' = ' ' := by
      rw [List.getD_eq_getElem?_getD]
      rw [Nat.add_sub_cancel, List.getElem?_append_right (Nat.le_refl _)]
      simp
    rw [hsp]
    simp [isWordChar]
  · have hd : (t ++ ' ' :: 'L' :: 'I' :: 'M' :: 'I' :: 'T' :: ' ' :: (Nat.repr n).data).drop
        (t.length + 1) =
        'L' :: 'I' :: 'M' :: 'I' :: 'T' :: ' ' :: (Nat.repr n).data := by
      rw [List.drop_append]
      rfl
    rw [hd]
    rfl
  · have hd : (t ++ ' ' :: 'L' :: 'I' :: 'M' :: 'I' :: 'T' :: ' ' :: (Nat.repr n).data).drop
        (t.length + 1 + 5) =
        ' ' :: (Nat.repr n).data := by
      have : t.length + 1 + 5 = t.length + 6 := by omega
      rw [this, List.drop_append]
      rfl
    rw [hd]
    unfold afterLimitOK
    rw [Bool.and_eq_true]
    refine ⟨by decide, ?_⟩
    obtain ⟨c, rest, hcr⟩ := List.exists_cons_of_ne_nil (repr_data_ne_nil n)
    have hdig : c.isDigit = true := repr_data_digits n c (by rw [hcr]; simp)
    rw [hcr]
    unfold afterDigit
    rw [if_neg (by rw [isDigit_not_space hdig]; simp)]
    exact hdig

lemma getLast?_append_right_of_ne_nil {l l' : List Char} (h : l' ≠ []) :
    (l ++ l').getLast? = l'.getLast? := by
  rw [List.getLast?_append]
  cases hg : l'.getLast? with
  | none => exact absurd (List.getLast?_eq_none_iff.1 hg) h
  | some c => rfl

lemma head?_append_left_of_ne_nil {l l' : List Char} (h : l ≠ []) :
    (l ++ l').head? = l.head? := by
  rw [List.head?_append]
  obtain ⟨c, t, rfl⟩ := List.exists_cons_of_ne_nil h
  rfl

lemma ensureLimit_fixed (r : String) (n : Nat)
    (h1 : jsTrimL r.data = r.data)
    (h2 : stripTrailingSemi r.data = r.data)
    (h3 : hasLimitL r.data = true) : ensureLimit r n = r := by
  simp only [ensureLimit]
  rw [h1, h2, if_pos h3]

lemma normSQL_head_not_space {s : String} (hne : normSQL s ≠ []) :
    ∀ c, (normSQL s).head? = some c → jsIsSpace c = false := by
  intro c hc
  unfold normSQL at hc
  rw [stripTrailingSemi_head? hne] at hc
  exact jsTrimL_head_not_space hc

lemma ensureLimit_idem (s : String) (n : Nat)
    (hne : normSQL s ≠ [])
    (hlast : hasLimitL (normSQL s) = true →
      ∀ c, (normSQL s).getLast? = some c → c ≠ ';' ∧ jsIsSpace c = false) :
    ensureLimit (ensureLimit s n) n = ensureLimit s n := by
  have hhead := normSQL_head_not_space hne
  by_cases hL : hasLimitL (normSQL s) = true
  · have he : ensureLimit s n = ⟨normSQL s⟩ := by
      simp only [ensureLimit]
      have hns : stripTrailingSemi (jsTrimL s.data) = normSQL s := rfl
      rw [hns, if_pos hL]
    rw [he]
    apply ensureLimit_fixed
    · apply jsTrimL_eq_self
      · exact hhead
      · intro c hc
        exact ((hlast hL) c hc).2
    · show stripTrailingSemi (normSQL s) = normSQL s
      unfold stripTrailingSemi
      rw [if_neg]
      intro hcon
      exact ((hlast hL) ';' hcon).1 rfl
    · exact hL
  · have hLf : hasLimitL (normSQL s) = false := by
      cases h : hasLimitL (normSQL s)
      · rfl
      · exact absurd h hL
    have he : ensureLimit s n = ⟨normSQL s⟩ ++ " LIMIT " ++ toString n := by
      simp only [ensureLimit]
      have hns : stripTrailingSemi (jsTrimL s.data) = normSQL s := rfl
      rw [hns, if_neg (by rw [hLf]; simp)]
    have hdata : (⟨normSQL s⟩ ++ " LIMIT " ++ (toString n : String)).data =
        normSQL s ++ (' ' :: 'L' :: 'I' :: 'M' :: 'I' :: 'T' :: ' ' :: (Nat.repr n).data) := by
      rw [String.data_append, String.data_append]
      rw [List.append_assoc]
      rfl
    have hrdlast : ∃ c, (Nat.repr n).data.getLast? = some c ∧ c.isDigit = true := by
      cases hg : (Nat.repr n).data.getLast? with
      | none => exact absurd (List.getLast?_eq_none_iff.1 hg) (repr_data_ne_nil n)
      | some c =>
        exact ⟨c, rfl, repr_data_digits n c (List.mem_of_mem_getLast? hg)⟩
    obtain ⟨cd, hcd, hcddig⟩ := hrdlast
    have hlastr : (normSQL s ++
        (' ' :: 'L' :: 'I' :: 'M' :: 'I' :: 'T' :: ' ' :: (Nat.repr n).data)).getLast? =
        some cd := by
      have hsplit : (' ' :: 'L' :: 'I' :: 'M' :: 'I' :: 'T' :: ' ' :: (Nat.repr n).data) =
          ([' ', 'L', 'I', 'M', 'I', 'T', ' '] ++ (Nat.repr n).data) := rfl
      rw [hsplit, ← List.append_assoc]
      rw [getLast?_append_right_of_ne_nil (repr_data_ne_nil n)]
      exact hcd
    rw [he]
    apply ensureLimit_fixed
    · rw [hdata]
      apply jsTrimL_eq_self
      · intro c hc
        rw [head?_append_left_of_ne_nil hne] at hc
        exact hhead c hc
      · intro c hc
        rw [hlastr] at hc
        have : cd = c := by simpa using hc
        subst this
        exact isDigit_not_space hcddig
    · rw [hdata]
      unfold stripTrailingSemi
      rw [if_neg]
      rw [hlastr]
      intro hcon
      have : cd = ';' := by simpa using hcon
      exact isDigit_ne_semi hcddig this
    · rw [hdata]
      exact hasLimit_append_suffix (normSQL s) n

lemma afterDigit_decomp {v : List Char} (h : afterDigit v = true) :
    ∃ w d x, v = w ++ d :: x ∧ (∀ c ∈ w, jsIsSpace c = true) ∧
      jsIsSpace d = false ∧ d.isDigit = true := by
  induction v with
  | nil => simp [afterDigit] at h
  | cons a t ih =>
    by_cases hs : jsIsSpace a = true
    · simp only [afterDigit] at h
      rw [if_pos hs] at h
      obtain ⟨w, d, x, rfl, hw, hd, hdig⟩ := ih h
      refine ⟨a :: w, d, x, rfl, ?_, hd, hdig⟩
      intro c hc
      rcases hc with _ | hc
      · exact hs
      · exact hw c (by assumption)
    · have hs' : jsIsSpace a = false := by
        cases h' : jsIsSpace a
        · rfl
        · exact absurd h' hs
      simp only [afterDigit] at h
      rw [if_neg hs] at h
      exact ⟨[], a, t, rfl, by simp, hs', h⟩

lemma afterDigit_of_decomp {w : List Char} {d : Char} {x : List Char}
    (hw : ∀ c ∈ w, jsIsSpace c = true) (hd : jsIsSpace d = false)
    (hdig : d.isDigit = true) : afterDigit (w ++ d :: x) = true := by
  induction w with
  | nil =>
    simp only [List.nil_append, afterDigit]
    rw [if_neg (by rw [hd]; simp)]
    exact hdig
  | cons a w' ih =>
    simp only [List.cons_append, afterDigit]
    rw [if_pos (hw a (by simp))]
    exact ih (fun c hc => hw c (by simp [hc]))

lemma afterLimitOK_iff (u : List Char) : afterLimitOK u = true ↔
    ∃ w d x, u = w ++ d :: x ∧ w ≠ [] ∧ (∀ c ∈ w, jsIsSpace c = true) ∧
      jsIsSpace d = false ∧ d.isDigit = true := by
  constructor
  · intro h
    cases u with
    | nil => simp [afterLimitOK] at h
    | cons a t =>
      simp only [afterLimitOK, Bool.and_eq_true] at h
      obtain ⟨w, d, x, rfl, hw, hd, hdig⟩ := afterDigit_decomp h.2
      refine ⟨a :: w, d, x, rfl, by simp, ?_, hd, hdig⟩
      intro c hc
      rcases hc with _ | hc
      · exact h.1
      · exact hw c (by assumption)
  · rintro ⟨w, d, x, rfl, hwne, hw, hd, hdig⟩
    obtain ⟨a, w', rfl⟩ := List.exists_cons_of_ne_nil hwne
    simp only [List.cons_append, afterLimitOK, Bool.and_eq_true]
    exact ⟨hw a (by simp), afterDigit_of_decomp (fun c hc => hw c (by simp [hc])) hd hdig⟩

lemma ciStartsWith_iff (kw : List Char) : ∀ (u : List Char),
    ciStartsWith kw u = true ↔ ∃ v x, u = v ++ x ∧ upperL v = upperL kw := by
  induction kw with
  | nil =>
    intro u
    constructor
    · intro _
      exact ⟨[], u, rfl, rfl⟩
    · intro _
      rfl
  | cons k ks ih =>
    intro u
    cases u with
    | nil =>
      constructor
      · intro h
        simp [ciStartsWith] at h
      · rintro ⟨v, x, hvx, hv⟩
        have hvnil : v = [] := by
          cases v with
          | nil => rfl
          | cons _ _ => simp at hvx
        subst hvnil
        simp [upperL] at hv
    | cons c cs =>
      simp only [ciStartsWith, Bool.and_eq_true, beq_iff_eq]
      constructor
      · rintro ⟨hk, h⟩
        obtain ⟨v, x, rfl, hv⟩ := (ih cs).1 h
        refine ⟨c :: v, x, rfl, ?_⟩
        simp only [upperL, List.map_cons] at hv ⊢
        rw [hv, hk]
      · rintro ⟨v, x, hvx, hv⟩
        cases v with
        | nil => simp [upperL] at hv
        | cons c' v' =>
          simp only [List.cons_append, List.cons.injEq] at hvx
          obtain ⟨rfl, rfl⟩ := hvx
          simp only [upperL, List.map_cons, List.cons.injEq] at hv
          exact ⟨hv.1.symm, (ih _).2 ⟨v', x, rfl, hv.2⟩⟩

lemma upperL_limit : upperL "LIMIT".data = ['L', 'I', 'M', 'I', 'T'] := rfl

lemma hasLimitL_iff (l : List Char) : hasLimitL l = true ↔
    ∃ u v w d x, l = u ++ v ++ w ++ d :: x ∧
      (u = [] ∨ ∃ a, u.getLast? = some a ∧ isWordChar a = false) ∧
      upperL v = ['L', 'I', 'M', 'I', 'T'] ∧
      w ≠ [] ∧ (∀ c ∈ w, jsIsSpace c = true) ∧
      jsIsSpace d = false ∧ d.isDigit = true := by
  constructor
  · intro h
    obtain ⟨i, hi, hmatch⟩ := List.any_eq_true.1 h
    have hile : i ≤ l.length := by
      have := List.mem_range.1 hi
      omega
    unfold limitMatchAt at hmatch
    rw [Bool.and_eq_true, Bool.and_eq_true] at hmatch
    obtain ⟨⟨hbb, hci⟩, halo⟩ := hmatch
    obtain ⟨v, x0, hdrop, hv⟩ := (ciStartsWith_iff "LIMIT".data (l.drop i)).1 hci
    rw [upperL_limit] at hv
    have hv5 : v.length = 5 := by
      have := congrArg List.length hv
      simpa [upperL] using this
    have halo' : afterLimitOK x0 = true := by
      have hdd : l.drop (i + 5) = x0 := by
        rw [← List.drop_drop, hdrop, ← hv5, List.drop_left]
      rwa [hdd] at halo
    obtain ⟨w, d, x, hx0, hwne, hws, hd, hdig⟩ := (afterLimitOK_iff x0).1 halo'
    refine ⟨l.take i, v, w, d, x, ?_, ?_, hv, hwne, hws, hd, hdig⟩
    · conv_lhs => rw [← List.take_append_drop i l]
      rw [hdrop, hx0]
      simp [List.append_assoc]
    · unfold boundaryBefore at hbb
      rw [Bool.or_eq_true] at hbb
      by_cases hI : i = 0
      · subst hI
        left
        rfl
      · right
        rcases hbb with hbb | hbb
        · exact absurd (of_decide_eq_true hbb) hI
        · have hi1 : i - 1 < l.length := by omega
          have hex : ∃ a, l[i - 1]? = some a :=
            ⟨l.get ⟨i - 1, hi1⟩, by simp [List.getElem?_eq_getElem hi1]⟩
          obtain ⟨a, ha⟩ := hex
          refine ⟨a, ?_, ?_⟩
          · rw [List.getLast?_eq_getElem?]
            have hlen : (l.take i).length = i := by
              simp
              omega
            rw [hlen]
            rw [List.getElem?_take]
            rw [if_pos (by omega)]
            exact ha
          · have hgd : l.getD (i - 1) ' ' = a := by
              rw [List.getD_eq_getElem?_getD, ha]
              rfl
            rw [hgd] at hbb
            simpa using hbb
  · rintro ⟨u, v, w, d, x, rfl, hbound, hv, hwne, hws, hd, hdig⟩
    have hv5 : v.length = 5 := by
      have := congrArg List.length hv
      simpa [upperL] using this
    apply List.any_eq_true.2
    refine ⟨u.length, List.mem_range.2 (by simp [List.length_append]; omega), ?_⟩
    unfold limitMatchAt
    rw [Bool.and_eq_true, Bool.and_eq_true]
    refine ⟨⟨?_, ?_⟩, ?_⟩
    · unfold boundaryBefore
      rcases hbound with rfl | ⟨a, hga, hwa⟩
      · simp
      · have hune : u ≠ [] := by
          intro hcon
          rw [hcon] at hga
          simp at hga
        have hulen : 0 < u.length := List.length_pos.2 hune
        rw [Bool.or_eq_true]
        right
        have hgd : (u ++ v ++ w ++ d :: x).getD (u.length - 1) ' ' = a := by
          rw [List.getD_eq_getElem?_getD]
          rw [List.append_assoc, List.append_assoc]
          rw [List.getElem?_append_left (by omega)]
          rw [← List.getLast?_eq_getElem?] at *
          rw [hga]
          rfl
        rw [hgd, hwa]
        rfl
    · have hdd : (u ++ v ++ w ++ d :: x).drop u.length = v ++ (w ++ d :: x) := by
        rw [List.append_assoc, List.append_assoc, List.drop_left]
      rw [hdd]
      exact (ciStartsWith_iff "LIMIT".data _).2 ⟨v, w ++ d :: x, rfl, by rw [hv, upperL_limit]⟩
    · have hdd : (u ++ v ++ w ++ d :: x).drop (u.length + 5) = w ++ d :: x := by
        have h1 : u ++ v ++ w ++ d :: x = (u ++ v) ++ (w ++ d :: x) := by
          simp [List.append_assoc]
        rw [h1]
        have h2 : u.length + 5 = (u ++ v).length := by
          simp [List.length_append, hv5]
        rw [h2, List.drop_left]
      rw [hdd]
      exact (afterLimitOK_iff _).2 ⟨w, d, x, rfl, hwne, hws, hd, hdig⟩

lemma eq_dropLast_append_of_getLast? {l : List Char} {c : Char}
    (h : l.getLast? = some c) : l = l.dropLast ++ [c] := by
  have hne : l ≠ [] := by
    intro hcon
    rw [hcon] at h
    simp at h
  have h2 := List.dropLast_append_getLast hne
  rw [List.getLast?_eq_getLast l hne] at h
  have h3 : l.getLast hne = c := by simpa using h
  rw [← h3]
  exact h2.symm

lemma hasLimitL_infix_ws (a m b : List Char)
    (ha : ∀ c ∈ a, jsIsSpace c = true)
    (hb : ∀ c ∈ b, jsIsSpace c = true ∨ c = ';')
    (h : hasLimitL (a ++ m ++ b) = true) : hasLimitL m = true := by
  rw [hasLimitL_iff] at h ⊢
  obtain ⟨u, v, w, d, x, heq, hbound, hv, hwne, hws, hd, hdig⟩ := h
  obtain ⟨c0, v', rfl⟩ : ∃ c0 v', v = c0 :: v' := by
    cases v with
    | nil => simp [upperL] at hv
    | cons c0 v' => exact ⟨c0, v', rfl⟩
  have hc0 : c0.toUpper = 'L' := by
    simp only [upperL, List.map_cons, List.cons.injEq] at hv
    exact hv.1
  have halu : a.length ≤ u.length := by
    by_contra hlt
    push_neg at hlt
    have h1 : (a ++ m ++ b)[u.length]? = some c0 := by
      rw [heq]
      have hassoc : u ++ (c0 :: v') ++ w ++ d :: x =
          u ++ ((c0 :: v') ++ (w ++ d :: x)) := by
        simp [List.append_assoc]
      rw [hassoc, List.getElem?_append_right (Nat.le_refl u.length)]
      simp
    have h2 : (a ++ m ++ b)[u.length]? = a[u.length]? := by
      rw [List.append_assoc, List.getElem?_append_left hlt]
    rw [h2] at h1
    have hma : c0 ∈ a := List.mem_iff_getElem?.2 ⟨u.length, h1⟩
    exact space_toUpper_ne_L (ha c0 hma) hc0
  have hp1 : a <+: (a ++ m ++ b) := by
    rw [List.append_assoc]
    exact List.prefix_append a (m ++ b)
  have hp2 : u <+: (a ++ m ++ b) := by
    rw [heq]
    have hassoc2 : u ++ (c0 :: v') ++ w ++ d :: x =
        u ++ ((c0 :: v') ++ (w ++ d :: x)) := by
      simp [List.append_assoc]
    rw [hassoc2]
    exact List.prefix_append u ((c0 :: v') ++ (w ++ d :: x))
  have hpre : a <+: u := List.prefix_of_prefix_length_le hp1 hp2 halu
  obtain ⟨u2, rfl⟩ := hpre
  have heq2 : m ++ b = u2 ++ ((c0 :: v') ++ (w ++ (d :: x))) := by
    have h' : a ++ (m ++ b) = a ++ (u2 ++ ((c0 :: v') ++ (w ++ (d :: x)))) := by
      rw [← List.append_assoc, heq]
      simp [List.append_assoc]
    exact List.append_cancel_left h'
  have hblx : b.length ≤ x.length := by
    by_contra hlt
    push_neg at hlt
    have hsx : d :: x <:+ m ++ b := by
      rw [heq2]
      have : u2 ++ ((c0 :: v') ++ (w ++ (d :: x))) =
          (u2 ++ (c0 :: v') ++ w) ++ (d :: x) := by
        simp [List.append_assoc]
      rw [this]
      exact List.suffix_append _ _
    have hdx : d :: x <:+ b := by
      apply List.suffix_of_suffix_length_le hsx (List.suffix_append m b)
      simp
      omega
    obtain ⟨t, ht⟩ := hdx
    have hdb : d ∈ b := by
      rw [← ht]
      simp
    rcases hb d hdb with hws' | hsemi
    · rw [hws'] at hd
      cases hd
    · subst hsemi
      exact absurd hdig (by decide)
  have hsufb : b <:+ x := by
    have hxs : x <:+ m ++ b := by
      rw [heq2]
      have : u2 ++ ((c0 :: v') ++ (w ++ (d :: x))) =
          (u2 ++ (c0 :: v') ++ w ++ [d]) ++ x := by
        simp [List.append_assoc]
      rw [this]
      exact List.suffix_append _ _
    exact List.suffix_of_suffix_length_le (List.suffix_append m b) hxs hblx
  obtain ⟨x2, rfl⟩ := hsufb
  have heqm : m = u2 ++ (c0 :: v') ++ w ++ d :: x2 := by
    have h' : m ++ b = (u2 ++ (c0 :: v') ++ w ++ d :: x2) ++ b := by
      rw [heq2]
      simp [List.append_assoc]
    exact List.append_cancel_right h'
  refine ⟨u2, c0 :: v', w, d, x2, heqm, ?_, hv, hwne, hws, hd, hdig⟩
  rcases hbound with hnil | ⟨a0, hga, hwa⟩
  · left
    exact (List.append_eq_nil.1 hnil).2
  · by_cases hu2 : u2 = []
    · left
      exact hu2
    · right
      refine ⟨a0, ?_, hwa⟩
      rw [getLast?_append_right_of_ne_nil hu2] at hga
      exact hga

lemma exists_trim_decomp (l : List Char) :
    ∃ a b, l = a ++ jsTrimL l ++ b ∧ (∀ c ∈ a, jsIsSpace c = true) ∧
      (∀ c ∈ b, jsIsSpace c = true) := by
  refine ⟨l.takeWhile jsIsSpace,
    ((l.dropWhile jsIsSpace).reverse.takeWhile jsIsSpace).reverse, ?_, ?_, ?_⟩
  · conv_lhs => rw [← List.takeWhile_append_dropWhile jsIsSpace l]
    rw [List.append_assoc]
    congr 1
    conv_lhs => rw [← List.reverse_reverse (l.dropWhile jsIsSpace)]
    conv_lhs =>
      rw [← List.takeWhile_append_dropWhile jsIsSpace (l.dropWhile jsIsSpace).reverse]
    rw [List.reverse_append]
    rfl
  · intro c hc
    exact List.mem_takeWhile_imp hc
  · intro c hc
    exact List.mem_takeWhile_imp (List.mem_reverse.1 hc)

lemma ensureLimit_no_append (s : String) (n : Nat) (h : hasLimitL s.data = true) :
    ensureLimit s n = ⟨normSQL s⟩ := by
  obtain ⟨a, b, hdec, ha, hb⟩ := exists_trim_decomp s.data
  have hnorm : hasLimitL (normSQL s) = true := by
    unfold normSQL stripTrailingSemi
    by_cases hl : (jsTrimL s.data).getLast? = some ';'
    · rw [if_pos hl]
      have ht := eq_dropLast_append_of_getLast? hl
      have h' : a ++ (jsTrimL s.data).dropLast ++ (';' :: b) =
          a ++ jsTrimL s.data ++ b := by
        conv_rhs => rw [ht]
        simp [List.append_assoc]
      apply hasLimitL_infix_ws a ((jsTrimL s.data).dropLast) (';' :: b) ha
      · intro c hc
        rcases hc with _ | hc
        · right
          rfl
        · left
          exact hb c (by assumption)
      · rw [h', ← hdec]
        exact h
    · rw [if_neg hl]
      apply hasLimitL_infix_ws a (jsTrimL s.data) b ha
      · intro c hc
        exact Or.inl (hb c hc)
      · rw [← hdec]
        exact h
  simp only [ensureLimit]
  have hns : stripTrailingSemi (jsTrimL s.data) = normSQL s := rfl
  rw [hns, if_pos hnorm]

lemma lastCharOK_spec {l : List Char} (h : lastCharOK l = true) :
    ∀ c, l.getLast? = some c → c ≠ ';' ∧ jsIsSpace c = false := by
  intro c hc
  unfold lastCharOK at h
  rw [hc] at h
  simp only [Bool.and_eq_true, Bool.not_eq_true'] at h
  refine ⟨?_, h.2⟩
  intro hcc
  subst hcc
  simp at h

/-- Claim C4, counterexample to idempotence: on "SELECT 1 LIMIT 5;;" the
first application strips one trailing semicolon (to "SELECT 1 LIMIT 5;")
and, a LIMIT clause being present, appends nothing; the second application
strips the remaining semicolon, so the results differ. -/

theorem c4_counterexample :
    ensureLimit (ensureLimit "SELECT 1 LIMIT 5;;" 50) 50 ≠
      ensureLimit "SELECT 1 LIMIT 5;;" 50 := by
  decide

/-- Claim C4, amended: ensureLimit is idempotent provided its normalized
text (trimmed, one trailing semicolon stripped) is nonempty and, when a
LIMIT clause is already present, does not end in a semicolon or
whitespace; it never appends a LIMIT clause when `LIMIT <number>` already
occurs anywhere in the input (in any case form); and
ensureLimit("SELECT * FROM t", 50) = "SELECT * FROM t LIMIT 50". -/

theorem c4_ensure_limit :
    (∀ (s : String) (n : Nat), normSQL s ≠ [] →
      (hasLimitL (normSQL s) = true → lastCharOK (normSQL s) = true) →
      ensureLimit (ensureLimit s n) n = ensureLimit s n) ∧
    (∀ (s : String) (n : Nat), hasLimitL s.data = true →
      ensureLimit s n = ⟨normSQL s⟩) ∧
    ensureLimit "SELECT * FROM t" 50 = "SELECT * FROM t LIMIT 50" :=
  ⟨fun s n h1 h2 => ensureLimit_idem s n h1 (fun hL => lastCharOK_spec (h2 hL)),
   fun s n h => ensureLimit_no_append s n h,
   by decide⟩

theorem c4_ensure_limit_witness :
    ensureLimit (ensureLimit "SELECT * FROM users LIMIT 10" 1000) 1000 =
      ensureLimit "SELECT * FROM users LIMIT 10" 1000 ∧
    ensureLimit "SELECT * FROM users LIMIT 10;" 1000 =
      ⟨normSQL "SELECT * FROM users LIMIT 10;"⟩ :=
  ⟨c4_ensure_limit.1 "SELECT * FROM users LIMIT 10" 1000 (by decide) (by decide),
   c4_ensure_limit.2.1 "SELECT * FROM users LIMIT 10;" 1000 (by decide)⟩
